import Mathlib

/-!
# Verification of the gametool memory-scanning engine

Shallow embedding of the core of the repository (src/data_types.py,
src/memory_scanner.py and the relevant fragment of src/main.py) and proofs
of the spec claims about it.

Bytes are `Nat` (each in `[0, 256)` where produced by the codec), addresses
and sizes are `Nat`, scanned integer values are `Int`.  `struct.pack` /
`struct.unpack` for the little-endian signed integer formats `<b`, `<h`,
`<i`, `<q` used by `DATA_TYPES` entries 1-4 are modelled exactly
(two's-complement little-endian with `struct`'s range check).  The float
formats `<f`, `<d` serialize the IEEE-754 bit pattern of the value as 4
resp. 8 little-endian bytes; they are modelled at bit-pattern level below
(`packFloatBits` / `unpackFloatBits`), identifying each representable float
with its bit pattern.  The engine operations are modelled over the
integer-valued fragment.
-/

namespace Gametool

/-- Little-endian byte serialization of a natural number into `w` bytes
(the digits of `n` in base 256, least significant first). -/
def toLEBytes : Nat → Nat → List Nat
  | 0, _ => []
  | w + 1, n => n % 256 :: toLEBytes w (n / 256)

/-- Little-endian byte deserialization: recombine base-256 digits. -/
def fromLEBytes : List Nat → Nat
  | [] => 0
  | b :: bs => b + 256 * fromLEBytes bs

/-- Model of `struct.pack` for the signed little-endian integer format of byte width
`w` (`<b`, `<h`, `<i`, `<q` for `w = 1, 2, 4, 8`): range-check the value as
`struct` does, then emit the two's-complement little-endian bytes.
`none` models `struct.error`. -/
def packInt (w : Nat) (v : Int) : Option (List Nat) :=
  if -(2 ^ (8 * w - 1) : Int) ≤ v ∧ v < 2 ^ (8 * w - 1) then
    some (toLEBytes w (v % (2 ^ (8 * w) : Int)).toNat)
  else
    none

/-- Model of `struct.unpack` for the signed little-endian integer format of byte
width `w`: recombine the bytes and interpret as two's complement. -/
def unpackInt (w : Nat) (bs : List Nat) : Int :=
  let u := fromLEBytes bs
  if u < 2 ^ (8 * w - 1) then (u : Int) else (u : Int) - 2 ^ (8 * w)

/-- The float formats `<f` / `<d` serialize the IEEE-754 bit pattern of a
representable value as `w` little-endian bytes (`w = 4` for `float`,
`w = 8` for `double`); representable values are identified with their bit
patterns (`bits < 2 ^ (8 * w)`). -/
def packFloatBits (w : Nat) (bits : Nat) : List Nat :=
  toLEBytes w bits

/-- Inverse of `packFloatBits`: recombine the bytes into the bit pattern. -/
def unpackFloatBits (bs : List Nat) : Nat :=
  fromLEBytes bs

/-- Structure `DataType` from src/data_types.py: name, byte width, struct format
code, optional inclusive bounds, signedness flag. -/
structure DataType where
  name : String
  size : Nat
  structCode : String
  minVal : Option Int
  maxVal : Option Int
  isSigned : Bool
deriving DecidableEq, Repr

/-- Entry `DATA_TYPES['1']`. -/
def int8 : DataType := ⟨"int8", 1, "<b", some (-128), some 127, true⟩
/-- Entry `DATA_TYPES['2']`. -/
def int16 : DataType := ⟨"int16", 2, "<h", some (-32768), some 32767, true⟩
/-- Entry `DATA_TYPES['3']`. -/
def int32 : DataType := ⟨"int32", 4, "<i", some (-2147483648), some 2147483647, true⟩
/-- Entry `DATA_TYPES['4']`. -/
def int64 : DataType :=
  ⟨"int64", 8, "<q", some (-9223372036854775808), some 9223372036854775807, true⟩

/-- The four integer entries of `DATA_TYPES`, whose codecs the engine model
covers (scanned values are integers in this fragment). -/
def integerDataTypes : List DataType := [int8, int16, int32, int64]

/-- Model of `struct.pack(struct_code, v)` for an integer value `v`, for the integer
format codes used by `DATA_TYPES`.  The float codes `<f`/`<d` are outside
the integer-valued fragment modelled here (their codec is modelled at bit
level by `packFloatBits`), so they are not given a byte semantics. -/
def structPack (code : String) (v : Int) : Option (List Nat) :=
  if code = "<b" then packInt 1 v
  else if code = "<h" then packInt 2 v
  else if code = "<i" then packInt 4 v
  else if code = "<q" then packInt 8 v
  else none

/-- Method `DataType.pack` from src/data_types.py (integer fragment). -/
def DataType.pack (dt : DataType) (v : Int) : Option (List Nat) :=
  structPack dt.structCode v

/-- Method `DataType.unpack` from src/data_types.py (integer fragment):
`struct.unpack(struct_code, data)[0]`. -/
def DataType.unpack (dt : DataType) (bs : List Nat) : Int :=
  unpackInt dt.size bs

/-! ## The memory environment and the scanner -/

/-- The fields of the `MEMORY_BASIC_INFORMATION` descriptor returned by
`pymem.Pymem.virtual_query` that `_get_readable_memory_regions` inspects. -/
structure VQInfo where
  RegionSize : Nat
  State : Nat
deriving DecidableEq, Repr

/-- The target process's memory as seen through the `pymem.Pymem` handle:
`read_bytes` (an exception is modelled as `none`), `virtual_query`
(likewise), and `write_bytes` (`false` models a raised exception). -/
structure Mem where
  readBytes : Nat → Nat → Option (List Nat)
  virtualQuery : Nat → Option VQInfo
  writeBytes : Nat → List Nat → Nat → Bool

/-- The `MemoryScanner` mutable fields relevant to the engine:
`current_results`, `data_type` and `cached_regions`. -/
structure ScannerState where
  currentResults : List (Nat × Int)
  dataType : Option DataType
  cachedRegions : Option (List (Nat × Nat))
deriving DecidableEq, Repr

/-- Model of `MemoryScanner._read_memory_region`: a safe read, `none` on failure. -/
def readMemoryRegion (m : Mem) (startAddress size : Nat) : Option (List Nat) :=
  m.readBytes startAddress size

/-- 4 KiB page, the advance used when `virtual_query` fails. -/
def pageSize : Nat := 0x1000

/-- The fixed upper bound of the region walk in
`_get_readable_memory_regions` ("Limit to reasonable 64-bit address space
(up to 128GB)"). -/
def maxScanAddress : Nat := 0x2000000000

/-- Constant `MEM_COMMIT`. -/
def memCommit : Nat := 0x1000

/-- One iteration structure of the `while address < max_address` loop of
`_get_readable_memory_regions`, with explicit fuel (each iteration advances
the address by at least one on success and by a page on query failure, so
`maxScanAddress` units of fuel cover every terminating run of the source
loop). -/
def getRegionsAux (m : Mem) : Nat → Nat → List (Nat × Nat)
  | 0, _ => []
  | fuel + 1, a =>
    if a < maxScanAddress then
      match m.virtualQuery a with
      | some mbi =>
        let rest := getRegionsAux m fuel (a + mbi.RegionSize)
        if mbi.State = memCommit then
          match m.readBytes a (min 0x1000 mbi.RegionSize) with
          | some t => if t ≠ [] then (a, mbi.RegionSize) :: rest else rest
          | none => rest
        else rest
      | none => getRegionsAux m fuel (a + pageSize)
    else []

/-- Model of `MemoryScanner._get_readable_memory_regions`. -/
def getReadableMemoryRegions (m : Mem) : List (Nat × Nat) :=
  getRegionsAux m maxScanAddress 0

/-- Python `range(0, stop, step)` for positive `step`. -/
def rangeStep (stop step : Nat) : List Nat :=
  (List.range ((stop + step - 1) / step)).map (fun k => k * step)

/-- The 64 KiB chunk size of `MemoryScanner.scan`. -/
def chunkSize : Nat := 64 * 1024

/-- The sliding-window loop of `MemoryScanner.scan` over one successfully
read chunk `data` whose first byte sits at address `base`
(= `start_address + offset`): for every window position compare the
`w`-byte slice against the packed target and record the decoded value on a
byte-exact match. -/
def scanChunk (tb : List Nat) (w : Nat) (base : Nat) (data : List Nat) :
    List (Nat × Int) :=
  if w ≤ data.length then
    (List.range (data.length - w + 1)).filterMap (fun i =>
      let c := (data.drop i).take w
      if c = tb then some (base + i, unpackInt w c) else none)
  else []

/-- The work done for one chunk descriptor `(read address, read length)`:
read it via `_read_memory_region` and, if the read succeeded, run the
sliding-window comparison; a failed read contributes nothing. -/
def chunkContrib (m : Mem) (tb : List Nat) (w : Nat) (c : Nat × Nat) :
    List (Nat × Int) :=
  match readMemoryRegion m c.1 c.2 with
  | some data => scanChunk tb w c.1 data
  | none => []

/-- The chunk descriptors of one region `(start, size)`: the inner
`for offset in range(0, size, chunk_size)` loop of `scan`, reading
`min(chunk_size, size - offset)` bytes at `start + offset`. -/
def regionChunks (r : Nat × Nat) : List (Nat × Nat) :=
  (rangeStep r.2 chunkSize).map (fun off => (r.1 + off, min chunkSize (r.2 - off)))

/-- All chunk descriptors of a region list, in scan order. -/
def chunkDescrs (regions : List (Nat × Nat)) : List (Nat × Nat) :=
  regions.flatMap regionChunks

/-- The region list `scan` iterates over: the cached list when present,
else a fresh discovery walk. -/
def regionsFor (m : Mem) (st : ScannerState) : List (Nat × Nat) :=
  match st.cachedRegions with
  | some rs => rs
  | none => getReadableMemoryRegions m

/-- Model of `MemoryScanner.scan`.  Errors carry the scanner state at the moment the
exception is raised (both raises happen before any mutation). -/
def scan (m : Mem) (st : ScannerState) (target : Int) :
    Except (String × ScannerState) (ScannerState × Nat) :=
  match st.dataType with
  | none => .error ("Data type not set", st)
  | some dt =>
    match structPack dt.structCode target with
    | none => .error ("Invalid value for " ++ dt.name, st)
    | some tb =>
      let regions := regionsFor m st
      let results := regions.flatMap (fun r =>
        (rangeStep r.2 chunkSize).flatMap (fun off =>
          chunkContrib m tb dt.size (r.1 + off, min chunkSize (r.2 - off))))
      .ok ({ st with currentResults := results, cachedRegions := some regions },
           results.length)

/-- Model of `MemoryScanner.filter_scan`: re-read `width` bytes at each recorded
address, keep the entries whose bytes equal the newly packed target
(`if data and data == target_bytes`), drop failed reads. -/
def filter_scan (m : Mem) (st : ScannerState) (v : Int) :
    Except (String × ScannerState) (ScannerState × Nat) :=
  match st.dataType with
  | none => .error ("Data type not set", st)
  | some dt =>
    match structPack dt.structCode v with
    | none => .error ("Invalid value for " ++ dt.name, st)
    | some tb =>
      let newResults := st.currentResults.filterMap (fun p =>
        match readMemoryRegion m p.1 dt.size with
        | some data =>
          if data ≠ [] ∧ data = tb then some (p.1, unpackInt dt.size data)
          else none
        | none => none)
      .ok ({ st with currentResults := newResults }, newResults.length)

/-- Model of `MemoryScanner.set_data_type`. -/
def set_data_type (st : ScannerState) (dt : DataType) : ScannerState :=
  { st with dataType := some dt }

/-- Model of `MemoryScanner.get_results`. -/
def get_results (st : ScannerState) : List (Nat × Int) :=
  st.currentResults

/-- Model of `MemoryScanner.write_value`: pack and write inside one `try`; any
failure (packing or the underlying write) yields `False`. -/
def write_value (m : Mem) (st : ScannerState) (addr : Nat) (v : Int) :
    Except (String × ScannerState) Bool :=
  match st.dataType with
  | none => .error ("Data type not set", st)
  | some dt =>
    match structPack dt.structCode v with
    | none => .ok false
    | some packed => .ok (m.writeBytes addr packed dt.size)

/-! ## The application-loop fragment of src/main.py the claims touch -/

/-- The `main` loop state relevant to the claims: the scanner, the
caller-side `data_type` variable and the `scanning_started` flag. -/
structure AppState where
  scanner : ScannerState
  dataType : DataType
  scanningStarted : Bool
deriving DecidableEq, Repr

/-- Menu option 5 of `main` (src/main.py lines 153-160): on a different
type, install it on the scanner and reset `scanning_started`; the
scanner's stored results are not touched. -/
def menuChangeDataType (app : AppState) (newType : DataType) : AppState :=
  if newType.name ≠ app.dataType.name then
    { scanner := set_data_type app.scanner newType,
      dataType := newType,
      scanningStarted := false }
  else app

/-- Menu option 2 of `main` (src/main.py lines 88-100): the filter path is
guarded by `scanning_started`; with the flag unset the application prints
"No scan results to filter" and never calls the engine (`none`). -/
def menuNextScan (m : Mem) (app : AppState) (v : Int) :
    Option (Except (String × ScannerState) (ScannerState × Nat)) :=
  if app.scanningStarted then some (filter_scan m app.scanner v) else none

/-! ## Concrete instances used by witnesses and counterexamples -/

/-- An inert environment: every query and read fails, every write fails. -/
def memAny : Mem :=
  { readBytes := fun _ _ => none,
    virtualQuery := fun _ => none,
    writeBytes := fun _ _ _ => false }

/-- The packed little-endian int32 pattern of the value 42. -/
def tb32 : List Nat := [42, 0, 0, 0]

/-- Contents of the region `(0x1000, 0x2000)` of the spec's scan scenario:
all zero bytes except the little-endian encoding of 42 at offset 0x50. -/
def scenarioData : List Nat :=
  List.replicate 0x50 0 ++ ([42, 0, 0, 0] ++ List.replicate 0x1FAC 0)

/-- Environment of the spec's scan scenario: the single region
`(0x1000, 0x2000)` is readable with contents `scenarioData`. -/
def mem1 : Mem :=
  { readBytes := fun a n =>
      if a = 0x1000 ∧ n = 0x2000 then some scenarioData else none,
    virtualQuery := fun _ => none,
    writeBytes := fun _ _ _ => false }

/-- Scanner state of the spec's scan scenario: int32 selected, region list
`[(0x1000, 0x2000)]` cached, no results yet. -/
def st1 : ScannerState :=
  { currentResults := [],
    dataType := some int32,
    cachedRegions := some [(0x1000, 0x2000)] }

/-- A committed descriptor covering all of `[0, 0x2000000000)` in one
region, plus a committed, probe-readable region right at `0x2000000000`
(inside the 64-bit address space but beyond the walk's fixed bound). -/
def mem7 : Mem :=
  { readBytes := fun _ n => some (List.replicate n 1),
    virtualQuery := fun a =>
      if a < 0x2000000000 then some ⟨0x2000000000 - a, 0x1000⟩
      else if a = 0x2000000000 then some ⟨0x1000, 0x1000⟩
      else none,
    writeBytes := fun _ _ _ => false }

/-- Scanner state with int32 selected, one recorded result and a cached
region list, used to instantiate filter and state-change claims. -/
def stRes : ScannerState :=
  { currentResults := [(0x1050, 42)],
    dataType := some int32,
    cachedRegions := none }

/-- Environment in which address 0x1050 currently reads back as the int32
value 42. -/
def memRes : Mem :=
  { readBytes := fun a n => if a = 0x1050 ∧ n = 4 then some tb32 else none,
    virtualQuery := fun _ => none,
    writeBytes := fun _ _ _ => false }

/-- Scanner state with int32 selected and an empty result set. -/
def stEmpty : ScannerState :=
  { currentResults := [], dataType := some int32, cachedRegions := none }

/-- Scanner state with no data type selected and a non-empty result set. -/
def stNoType : ScannerState :=
  { currentResults := [(0x1050, 42)], dataType := none,
    cachedRegions := some [(0x1000, 0x2000)] }

/-! ## Theorems: codec -/

theorem length_toLEBytes (w n : Nat) : (toLEBytes w n).length = w := by
  induction w generalizing n with
  | zero => rfl
  | succ w ih => simp [toLEBytes, ih]

theorem fromLEBytes_toLEBytes (w n : Nat) :
    fromLEBytes (toLEBytes w n) = n % 256 ^ w := by
  induction w generalizing n with
  | zero => simp [toLEBytes, fromLEBytes, Nat.mod_one]
  | succ w ih =>
    have h : 256 ^ (w + 1) = 256 * 256 ^ w := by ring
    rw [toLEBytes, fromLEBytes, ih, h, Nat.mod_mul]

theorem pow_split (w : Nat) (hw : 1 ≤ w) :
    (2 : Int) ^ (8 * w) = 2 * 2 ^ (8 * w - 1) := by
  have h : 8 * w - 1 + 1 = 8 * w := by omega
  calc (2 : Int) ^ (8 * w) = 2 ^ (8 * w - 1 + 1) := by rw [h]
    _ = 2 ^ (8 * w - 1) * 2 := pow_succ _ _
    _ = 2 * 2 ^ (8 * w - 1) := by ring

theorem pow256_eq (w : Nat) : (256 : Nat) ^ w = 2 ^ (8 * w) := by
  have h : (256 : Nat) = 2 ^ 8 := by norm_num
  rw [h, ← Nat.pow_mul]

/-- Codec round trip for the signed integer formats: packing any in-range
value and unpacking the bytes returns the value. -/
theorem unpackInt_packInt (w : Nat) (hw : 1 ≤ w) (v : Int) (bs : List Nat)
    (h : packInt w v = some bs) : unpackInt w bs = v := by
  unfold packInt at h
  by_cases hr : -(2 ^ (8 * w - 1) : Int) ≤ v ∧ v < 2 ^ (8 * w - 1)
  · rw [if_pos hr] at h
    have hbs : bs = toLEBytes w (v % (2 ^ (8 * w) : Int)).toNat :=
      (Option.some_injective _ h).symm
    have hM : (0 : Int) < 2 ^ (8 * w) := by positivity
    have hemod_nonneg : (0 : Int) ≤ v % 2 ^ (8 * w) := Int.emod_nonneg v (by omega)
    have hemod_lt : v % 2 ^ (8 * w) < 2 ^ (8 * w) := Int.emod_lt_of_pos v hM
    have hsplit := pow_split w hw
    have h2 : ((2 ^ (8 * w - 1) : Nat) : Int) = 2 ^ (8 * w - 1) := by
      push_cast; ring
    have h3 : ((2 ^ (8 * w) : Nat) : Int) = 2 ^ (8 * w) := by
      push_cast; ring
    have hval : fromLEBytes bs = (v % (2 ^ (8 * w) : Int)).toNat := by
      rw [hbs, fromLEBytes_toLEBytes, pow256_eq, Nat.mod_eq_of_lt]
      omega
    simp only [unpackInt]
    rcases le_or_lt 0 v with hv | hv
    · have hmod : v % 2 ^ (8 * w) = v := Int.emod_eq_of_lt hv (by omega)
      rw [hval, hmod]
      rw [if_pos (by omega)]
      omega
    · have hmod : v % 2 ^ (8 * w) = v + 2 ^ (8 * w) := by
        have h4 : (v + 2 ^ (8 * w) * 1) % 2 ^ (8 * w) = v % 2 ^ (8 * w) :=
          Int.add_mul_emod_self_left v (2 ^ (8 * w)) 1
        have h5 : (v + 2 ^ (8 * w)) % 2 ^ (8 * w) = v + 2 ^ (8 * w) :=
          Int.emod_eq_of_lt (by omega) (by omega)
        rw [mul_one] at h4
        omega
      rw [hval, hmod]
      rw [if_neg (by omega)]
      omega
  · rw [if_neg hr] at h
    exact absurd h (by simp)

theorem unpackFloatBits_packFloatBits (w bits : Nat) (h : bits < 2 ^ (8 * w)) :
    unpackFloatBits (packFloatBits w bits) = bits := by
  unfold packFloatBits unpackFloatBits
  rw [fromLEBytes_toLEBytes, pow256_eq, Nat.mod_eq_of_lt h]

theorem integer_pack_eq (dt : DataType) (h : dt ∈ integerDataTypes) (v : Int) :
    dt.pack v = packInt dt.size v := by
  fin_cases h <;> rfl

/-! ## Theorems: list helpers -/

theorem filterMap_range_singleton {α : Type} (f : Nat → Option α) (n m : Nat)
    (y : α) (hm : m < n) (hy : f m = some y)
    (h0 : ∀ i, i < n → i ≠ m → f i = none) :
    (List.range n).filterMap f = [y] := by
  have hn : n = m + ((n - m - 1) + 1) := by omega
  rw [hn, List.range_add, List.range_succ_eq_map, List.map_cons, List.map_map,
    List.filterMap_append]
  have h1 : (List.range m).filterMap f = [] := by
    rw [List.filterMap_eq_nil_iff]
    intro a ha
    have := List.mem_range.mp ha
    exact h0 a (by omega) (by omega)
  have h2 : f (m + 0) = some y := by
    rw [Nat.add_zero]
    exact hy
  rw [h1, List.filterMap_cons_some h2]
  have h4 : ((List.range (n - m - 1)).map ((fun x => m + x) ∘ Nat.succ)).filterMap
      f = [] := by
    rw [List.filterMap_eq_nil_iff]
    intro a ha
    simp only [List.mem_map, List.mem_range, Function.comp] at ha
    obtain ⟨b, hb, rfl⟩ := ha
    exact h0 (m + Nat.succ b) (by omega) (by omega)
  rw [h4]
  rfl

theorem slice_length (data : List Nat) (i w : Nat) (h : i + w ≤ data.length) :
    ((data.drop i).take w).length = w := by
  simp only [List.length_take, List.length_drop]
  omega

theorem slice_getElem_zero (data : List Nat) (i w : Nat)
    (h : i + w ≤ data.length) (hi : i < data.length)
    (hb : 0 < ((data.drop i).take w).length) :
    ((data.drop i).take w)[0] = data[i] := by
  rw [List.getElem_take, List.getElem_drop]
  simp

/-! ## Theorems: sliding-window characterization of the chunk scan -/

theorem scanChunk_mem_iff (tb : List Nat) (w base : Nat) (data : List Nat)
    (_hw : 1 ≤ w) (p : Nat × Int) :
    p ∈ scanChunk tb w base data ↔
      ∃ i, i + w ≤ data.length ∧ (data.drop i).take w = tb ∧
        p = (base + i, unpackInt w ((data.drop i).take w)) := by
  unfold scanChunk
  by_cases hlen : w ≤ data.length
  · rw [if_pos hlen]
    simp only [List.mem_filterMap, List.mem_range]
    constructor
    · rintro ⟨i, hi, hf⟩
      by_cases hc : (data.drop i).take w = tb
      · rw [if_pos hc] at hf
        exact ⟨i, by omega, hc, (Option.some_injective _ hf).symm⟩
      · rw [if_neg hc] at hf
        exact absurd hf (by simp)
    · rintro ⟨i, hi, hc, hp⟩
      exact ⟨i, by omega, by rw [if_pos hc, hp]⟩
  · rw [if_neg hlen]
    simp only [List.not_mem_nil, false_iff, not_exists, not_and]
    intro i hi
    omega

/-! ## Theorems: decomposition of a successful scan into chunk work -/

theorem scan_ok (m : Mem) (st : ScannerState) (dt : DataType) (v : Int)
    (tb : List Nat) (hdt : st.dataType = some dt)
    (hpk : structPack dt.structCode v = some tb) :
    scan m st v = .ok
      ({ st with
          currentResults :=
            (chunkDescrs (regionsFor m st)).flatMap (chunkContrib m tb dt.size),
          cachedRegions := some (regionsFor m st) },
        ((chunkDescrs (regionsFor m st)).flatMap
          (chunkContrib m tb dt.size)).length) := by
  simp only [scan, hdt, hpk, chunkDescrs, regionChunks, List.flatMap_assoc,
    List.flatMap_map, Function.comp]

/-! ## Theorems: the concrete scan scenario -/

theorem scenarioData_length : scenarioData.length = 8192 := by
  unfold scenarioData
  rw [List.length_append, List.length_append, List.length_replicate,
    List.length_replicate]
  decide

theorem scenarioData_getElem_ne (i : Nat) (h : i < scenarioData.length)
    (hne : i ≠ 0x50) : scenarioData[i] = 0 := by
  unfold scenarioData
  rw [List.getElem_append]
  split_ifs with h1
  · exact List.getElem_replicate 0 _
  · rw [List.length_replicate] at h1
    rw [List.getElem_append]
    split_ifs with h2
    · have h3 : i - 0x50 < 4 := by simpa using h2
      have h4 : 1 ≤ i - 0x50 := by omega
      have h5 : i - (0x50 : Nat) = 1 ∨ i - (0x50 : Nat) = 2 ∨ i - (0x50 : Nat) = 3 := by
        omega
      rcases h5 with h5 | h5 | h5 <;> simp [h5]
    · exact List.getElem_replicate 0 _

theorem scenario_slice_at : (scenarioData.drop 0x50).take 4 = tb32 := by
  unfold scenarioData tb32
  rw [List.drop_left' (by rw [List.length_replicate])]
  exact List.take_left' rfl

theorem scanChunk_scenario :
    scanChunk tb32 4 0x1000 scenarioData = [(0x1050, 42)] := by
  unfold scanChunk
  rw [if_pos (by rw [scenarioData_length]; omega), scenarioData_length]
  have h8189 : (8192 : Nat) - 4 + 1 = 8189 := by norm_num
  rw [h8189]
  refine filterMap_range_singleton _ 8189 0x50 _ (by norm_num) ?_ ?_
  · rw [scenario_slice_at]
    decide
  · intro i hi hne
    by_cases hc : (scenarioData.drop i).take 4 = tb32
    · exfalso
      have hlen : i + 4 ≤ scenarioData.length := by rw [scenarioData_length]; omega
      have hi2 : i < scenarioData.length := by omega
      have hb : 0 < ((scenarioData.drop i).take 4).length := by
        rw [slice_length _ _ _ hlen]
        norm_num
      have he := List.getElem_of_eq hc hb
      rw [slice_getElem_zero scenarioData i 4 hlen hi2 hb] at he
      rw [scenarioData_getElem_ne i hi2 hne] at he
      simp [tb32] at he
    · exact if_neg hc

theorem scan_scenario :
    scan mem1 st1 42 = .ok ({ st1 with currentResults := [(0x1050, 42)] }, 1) := by
  have hpk : structPack int32.structCode 42 = some tb32 := by decide
  have h := scan_ok mem1 st1 int32 42 tb32 rfl hpk
  have hreg : regionsFor mem1 st1 = [(0x1000, 0x2000)] := rfl
  have hd : chunkDescrs [(0x1000, 0x2000)] = [(0x1000, 0x2000)] := by decide
  have hflat : (chunkDescrs (regionsFor mem1 st1)).flatMap
      (chunkContrib mem1 tb32 int32.size) = [(0x1050, 42)] := by
    rw [hreg, hd, List.flatMap_cons, List.flatMap_nil, List.append_nil]
    show chunkContrib mem1 tb32 4 (0x1000, 0x2000) = [(0x1050, 42)]
    exact scanChunk_scenario
  rw [h, hflat, hreg]
  rfl

/-! ## Claim C2 -/

/-- C2: filtering is monotonic.  Whenever `filter_scan` returns a count,
the count is the size of the new result set, the new set is no larger than
the old one, and every surviving entry's address was present in the result
set before the call. -/
theorem filter_scan_monotone (m : Mem) (st : ScannerState) (v : Int)
    (st2 : ScannerState) (n : Nat) (h : filter_scan m st v = .ok (st2, n)) :
    n = st2.currentResults.length ∧
    st2.currentResults.length ≤ st.currentResults.length ∧
    ∀ p ∈ st2.currentResults, ∃ q ∈ st.currentResults, q.1 = p.1 := by
  cases hdt : st.dataType with
  | none =>
    simp only [filter_scan, hdt] at h
    exact Except.noConfusion h
  | some dt =>
    cases hpk : structPack dt.structCode v with
    | none =>
      simp only [filter_scan, hdt, hpk] at h
      exact Except.noConfusion h
    | some tb =>
      simp only [filter_scan, hdt, hpk] at h
      have hpq := Except.ok.inj h
      have h1 : st2 = _ := (congrArg Prod.fst hpq).symm
      have h2 : n = st2.currentResults.length := by
        rw [h1]
        exact (congrArg Prod.snd hpq).symm
      refine ⟨h2, ?_, ?_⟩
      · rw [h1]
        exact List.length_filterMap_le _ _
      · intro p hp
        rw [h1] at hp
        simp only [List.mem_filterMap] at hp
        obtain ⟨q, hq, hfq⟩ := hp
        refine ⟨q, hq, ?_⟩
        cases hr : readMemoryRegion m q.1 dt.size with
        | none =>
          simp only [hr] at hfq
          exact Option.noConfusion hfq
        | some data =>
          simp only [hr] at hfq
          by_cases hcond : data ≠ [] ∧ data = tb
          · rw [if_pos hcond] at hfq
            have h3 := Option.some.inj hfq
            rw [← h3]
          · rw [if_neg hcond] at hfq
            exact absurd hfq (by simp)

/-- Witness for C2: a concrete filter pass whose count drops from one
entry to one surviving entry. -/
theorem filter_scan_monotone_witness :
    ∃ st2 : ScannerState, ∃ n : Nat,
      filter_scan memRes stRes 42 = .ok (st2, n) ∧
      st2.currentResults.length ≤ stRes.currentResults.length := by
  refine ⟨{ stRes with currentResults := [(0x1050, 42)] }, 1, rfl, ?_⟩
  exact (filter_scan_monotone memRes stRes 42
    { stRes with currentResults := [(0x1050, 42)] } 1 rfl).2.1

/-! ## Claim C5 (corrected) -/

/-- C5 counterexample: with int32 selected and an empty result set,
`filter_scan` does not report an input error; it returns a count (zero)
and leaves the state as it was. -/
theorem filter_scan_empty_returns_count :
    filter_scan memAny stEmpty 42 = .ok (stEmpty, 0) ∧
    ∀ e : String × ScannerState, filter_scan memAny stEmpty 42 ≠ .error e := by
  refine ⟨rfl, ?_⟩
  intro e h
  rw [show filter_scan memAny stEmpty 42 = .ok (stEmpty, 0) from rfl] at h
  exact Except.noConfusion h

/-- C5 amended: a filter over an empty result set returns count 0 without
raising and without touching state or memory (the result does not depend on
the environment); the caller error "No scan results to filter" is issued by
the application layer, gated on its `scanning_started` flag, before the
engine is ever called. -/
theorem filter_scan_empty_ok_and_app_guard :
    (∀ (m : Mem) (st : ScannerState) (v : Int) (dt : DataType) (tb : List Nat),
       st.dataType = some dt → structPack dt.structCode v = some tb →
       st.currentResults = [] →
       filter_scan m st v = .ok (st, 0)) ∧
    (∀ (m : Mem) (app : AppState) (v : Int), app.scanningStarted = false →
       menuNextScan m app v = none) := by
  constructor
  · intro m st v dt tb hdt hpk hres
    cases st with
    | mk cr dty creg =>
      simp only at hdt hres
      subst hdt
      subst hres
      simp only [filter_scan, hpk, List.filterMap_nil, List.length_nil]
  · intro m app v h
    simp [menuNextScan, h]

/-- Witness for the amended C5 at concrete inputs. -/
theorem filter_scan_empty_witness :
    filter_scan memAny stEmpty 42 = .ok (stEmpty, 0) ∧
    menuNextScan memAny
      { scanner := stEmpty, dataType := int32, scanningStarted := false }
      42 = none := by
  obtain ⟨h1, h2⟩ := filter_scan_empty_ok_and_app_guard
  exact ⟨h1 memAny stEmpty 42 int32 tb32 rfl rfl rfl, h2 memAny _ 42 rfl⟩

/-! ## Claim C6 -/

/-- C6: if packing the target value under the active type's codec fails,
both `scan` and `filter_scan` raise the caller-input error "Invalid value
for ..." immediately; the carried state is exactly the state before the
call (no result or cached-region mutation has happened), and no memory
operation is involved. -/
theorem invalid_value_raises_before_memory (m : Mem) (st : ScannerState)
    (v : Int) (dt : DataType) (hdt : st.dataType = some dt)
    (hpk : structPack dt.structCode v = none) :
    scan m st v = .error ("Invalid value for " ++ dt.name, st) ∧
    filter_scan m st v = .error ("Invalid value for " ++ dt.name, st) := by
  constructor
  · simp only [scan, hdt, hpk]
  · simp only [filter_scan, hdt, hpk]

/-- Witness for C6: packing 2^40 as int32 fails, and `scan` raises with
the state untouched. -/
theorem invalid_value_witness :
    scan memAny stRes 1099511627776 =
      .error ("Invalid value for " ++ int32.name, stRes) := by
  exact (invalid_value_raises_before_memory memAny stRes 1099511627776 int32
    rfl rfl).1

/-! ## Claim C10 -/

/-- C10: with no data type selected, `scan`, `filter_scan` and
`write_value` all raise the input error "Data type not set" before any
memory access, carrying the unchanged scanner state. -/
theorem no_data_type_raises (m : Mem) (st : ScannerState) (v : Int) (a : Nat)
    (h : st.dataType = none) :
    scan m st v = .error ("Data type not set", st) ∧
    filter_scan m st v = .error ("Data type not set", st) ∧
    write_value m st a v = .error ("Data type not set", st) := by
  refine ⟨?_, ?_, ?_⟩
  · simp only [scan, h]
  · simp only [filter_scan, h]
  · simp only [write_value, h]

/-- Witness for C10 at a concrete typeless state with non-empty results. -/
theorem no_data_type_witness :
    scan memAny stNoType 42 = .error ("Data type not set", stNoType) ∧
    filter_scan memAny stNoType 42 = .error ("Data type not set", stNoType) ∧
    write_value memAny stNoType 0x1050 42 =
      .error ("Data type not set", stNoType) := by
  exact no_data_type_raises memAny stNoType 42 0x1050 rfl

/-! ## Claim C9 -/

/-- C9: with a data type selected, `write_value` always returns a
success/failure Boolean and never raises; a failing underlying write is
reported as `false`, as is a packing failure (both are caught by the same
handler). -/
theorem write_value_reports_failure (m : Mem) (st : ScannerState) (a : Nat)
    (v : Int) (dt : DataType) (hdt : st.dataType = some dt) :
    (∃ b : Bool, write_value m st a v = .ok b) ∧
    (∀ packed : List Nat, structPack dt.structCode v = some packed →
       m.writeBytes a packed dt.size = false → write_value m st a v = .ok false) ∧
    (structPack dt.structCode v = none → write_value m st a v = .ok false) := by
  refine ⟨?_, ?_, ?_⟩
  · cases hpk : structPack dt.structCode v with
    | none => exact ⟨false, by simp only [write_value, hdt, hpk]⟩
    | some packed =>
      exact ⟨m.writeBytes a packed dt.size, by simp only [write_value, hdt, hpk]⟩
  · intro packed hpk hw
    simp only [write_value, hdt, hpk, hw]
  · intro hpk
    simp only [write_value, hdt, hpk]

/-- Witness for C9: a concrete failing write is reported as `ok false`. -/
theorem write_value_witness :
    write_value memAny stRes 0x1050 42 = .ok false := by
  exact (write_value_reports_failure memAny stRes 0x1050 42 int32 rfl).2.1
    tb32 rfl rfl

/-! ## Claim C4 (corrected) -/

/-- C4 counterexample: after `set_data_type` with a different type,
`get_results` still returns the old, non-empty result set; the engine does
not clear it. -/
theorem set_data_type_keeps_results :
    int8.name ≠ int32.name ∧
    get_results (set_data_type stRes int8) = [(0x1050, 42)] ∧
    get_results (set_data_type stRes int8) ≠ [] := by
  refine ⟨by decide, rfl, by decide⟩

/-- C4 amended: `set_data_type` installs the new type and leaves the
stored result set untouched; the invalidation the spec describes lives in
the application loop, which resets its `scanning_started` flag when the
chosen type differs (so results are not offered again until a new scan,
which clears them), while the scanner's results survive unchanged. -/
theorem set_data_type_and_app_flag (st : ScannerState) (dt : DataType)
    (app : AppState) (t : DataType) (h : t.name ≠ app.dataType.name) :
    get_results (set_data_type st dt) = get_results st ∧
    (set_data_type st dt).dataType = some dt ∧
    (menuChangeDataType app t).scanningStarted = false ∧
    (menuChangeDataType app t).scanner.currentResults =
      app.scanner.currentResults := by
  refine ⟨rfl, rfl, ?_, ?_⟩ <;>
    simp only [menuChangeDataType, if_pos h, set_data_type]

/-- Witness for the amended C4 at a concrete application state. -/
theorem set_data_type_witness :
    get_results (set_data_type stRes int8) = get_results stRes ∧
    (menuChangeDataType
      { scanner := stRes, dataType := int32, scanningStarted := true }
      int8).scanningStarted = false := by
  have h := set_data_type_and_app_flag stRes int8
    { scanner := stRes, dataType := int32, scanningStarted := true } int8
    (by decide)
  exact ⟨h.1, h.2.2.1⟩

/-! ## Claim C3 -/

/-- C3: codec round trip.  For each of the four signed integer types,
unpacking the packed bytes of any representable value returns the value,
and a value is packable exactly when it lies in the type's declared
`min_val`/`max_val` range; for the float and double formats, modelled at
IEEE bit-pattern level, deserializing the serialized 4- resp. 8-byte
little-endian pattern returns the pattern. -/
theorem codec_round_trip :
    (∀ dt ∈ integerDataTypes, ∀ (v : Int) (bs : List Nat),
       dt.pack v = some bs → dt.unpack bs = v) ∧
    (∀ dt ∈ integerDataTypes, ∀ v : Int,
       (dt.pack v).isSome ↔ dt.minVal.getD 0 ≤ v ∧ v ≤ dt.maxVal.getD 0) ∧
    (∀ bits : Nat, bits < 2 ^ 32 →
       unpackFloatBits (packFloatBits 4 bits) = bits) ∧
    (∀ bits : Nat, bits < 2 ^ 64 →
       unpackFloatBits (packFloatBits 8 bits) = bits) := by
  refine ⟨?_, ?_, ?_, ?_⟩
  · intro dt hdt
    fin_cases hdt <;> intro v bs hp <;>
      exact unpackInt_packInt _ (by decide) v bs hp
  · intro dt hdt v
    fin_cases hdt
    · show (packInt 1 v).isSome ↔ -128 ≤ v ∧ v ≤ 127
      have hiff : (-(2 ^ (8 * 1 - 1) : Int) ≤ v ∧ v < 2 ^ (8 * 1 - 1)) ↔
          (-128 ≤ v ∧ v ≤ 127) := by
        norm_num
        omega
      unfold packInt
      split_ifs with hcond
      · simp only [Option.isSome_some, true_iff]
        exact hiff.mp hcond
      · simp only [Option.isSome_none, Bool.false_eq_true, false_iff]
        intro hc
        exact hcond (hiff.mpr hc)
    · show (packInt 2 v).isSome ↔ -32768 ≤ v ∧ v ≤ 32767
      have hiff : (-(2 ^ (8 * 2 - 1) : Int) ≤ v ∧ v < 2 ^ (8 * 2 - 1)) ↔
          (-32768 ≤ v ∧ v ≤ 32767) := by
        norm_num
        omega
      unfold packInt
      split_ifs with hcond
      · simp only [Option.isSome_some, true_iff]
        exact hiff.mp hcond
      · simp only [Option.isSome_none, Bool.false_eq_true, false_iff]
        intro hc
        exact hcond (hiff.mpr hc)
    · show (packInt 4 v).isSome ↔ -2147483648 ≤ v ∧ v ≤ 2147483647
      have hiff : (-(2 ^ (8 * 4 - 1) : Int) ≤ v ∧ v < 2 ^ (8 * 4 - 1)) ↔
          (-2147483648 ≤ v ∧ v ≤ 2147483647) := by
        norm_num
        omega
      unfold packInt
      split_ifs with hcond
      · simp only [Option.isSome_some, true_iff]
        exact hiff.mp hcond
      · simp only [Option.isSome_none, Bool.false_eq_true, false_iff]
        intro hc
        exact hcond (hiff.mpr hc)
    · show (packInt 8 v).isSome ↔ -9223372036854775808 ≤ v ∧ v ≤ 9223372036854775807
      have hiff : (-(2 ^ (8 * 8 - 1) : Int) ≤ v ∧ v < 2 ^ (8 * 8 - 1)) ↔
          (-9223372036854775808 ≤ v ∧ v ≤ 9223372036854775807) := by
        norm_num
        omega
      unfold packInt
      split_ifs with hcond
      · simp only [Option.isSome_some, true_iff]
        exact hiff.mp hcond
      · simp only [Option.isSome_none, Bool.false_eq_true, false_iff]
        intro hc
        exact hcond (hiff.mpr hc)
  · intro bits h
    exact unpackFloatBits_packFloatBits 4 bits h
  · intro bits h
    exact unpackFloatBits_packFloatBits 8 bits h

/-- Witness for C3: int32 round-trips 42, and the float codec round-trips
the bit pattern of 3.14159f. -/
theorem codec_round_trip_witness :
    int32.unpack tb32 = 42 ∧
    unpackFloatBits (packFloatBits 4 1078530011) = 1078530011 := by
  obtain ⟨h1, _, h3, _⟩ := codec_round_trip
  exact ⟨h1 int32 (by decide) 42 tb32 rfl, h3 1078530011 (by norm_num)⟩

/-! ## Claim C7 (corrected): the region walk -/

/-- Invariant of the walk loop: every returned region starts at or after
the walk position and below the bound, was committed with a successful
non-empty probe read, and the returned bases never overlap. -/
theorem getRegionsAux_spec (m : Mem) (fuel : Nat) :
    ∀ a : Nat,
      (∀ r ∈ getRegionsAux m fuel a, a ≤ r.1 ∧ r.1 < maxScanAddress ∧
        ∃ mbi : VQInfo, m.virtualQuery r.1 = some mbi ∧ mbi.RegionSize = r.2 ∧
          mbi.State = memCommit ∧
          ∃ t : List Nat,
            m.readBytes r.1 (min 0x1000 mbi.RegionSize) = some t ∧ t ≠ []) ∧
      List.Chain' (fun r s => r.1 + r.2 ≤ s.1) (getRegionsAux m fuel a) := by
  induction fuel with
  | zero =>
    intro a
    constructor
    · intro r hr
      simp [getRegionsAux] at hr
    · simp [getRegionsAux]
  | succ fuel ih =>
    intro a
    by_cases ha : a < maxScanAddress
    · cases hq : m.virtualQuery a with
      | none =>
        have h1 : getRegionsAux m (fuel + 1) a =
            getRegionsAux m fuel (a + pageSize) := by
          simp [getRegionsAux, ha, hq]
        rw [h1]
        obtain ⟨hmem, hch⟩ := ih (a + pageSize)
        refine ⟨fun r hr => ?_, hch⟩
        obtain ⟨h2, h3⟩ := hmem r hr
        exact ⟨by omega, h3⟩
      | some mbi =>
        by_cases hcm : mbi.State = memCommit
        · cases hrd : m.readBytes a (min 0x1000 mbi.RegionSize) with
          | none =>
            have h1 : getRegionsAux m (fuel + 1) a =
                getRegionsAux m fuel (a + mbi.RegionSize) := by
              simp [getRegionsAux, ha, hq, hcm, hrd]
            rw [h1]
            obtain ⟨hmem, hch⟩ := ih (a + mbi.RegionSize)
            refine ⟨fun r hr => ?_, hch⟩
            obtain ⟨h2, h3⟩ := hmem r hr
            exact ⟨by omega, h3⟩
          | some t =>
            by_cases ht : t = []
            · have h1 : getRegionsAux m (fuel + 1) a =
                  getRegionsAux m fuel (a + mbi.RegionSize) := by
                simp [getRegionsAux, ha, hq, hcm, hrd, ht]
              rw [h1]
              obtain ⟨hmem, hch⟩ := ih (a + mbi.RegionSize)
              refine ⟨fun r hr => ?_, hch⟩
              obtain ⟨h2, h3⟩ := hmem r hr
              exact ⟨by omega, h3⟩
            · have h1 : getRegionsAux m (fuel + 1) a =
                  (a, mbi.RegionSize) ::
                    getRegionsAux m fuel (a + mbi.RegionSize) := by
                simp [getRegionsAux, ha, hq, hcm, hrd, ht]
              rw [h1]
              obtain ⟨hmem, hch⟩ := ih (a + mbi.RegionSize)
              constructor
              · intro r hr
                rcases List.mem_cons.mp hr with hr | hr
                · subst hr
                  exact ⟨le_refl a, ha, mbi, hq, rfl, hcm, t, hrd, ht⟩
                · obtain ⟨h2, h3⟩ := hmem r hr
                  exact ⟨by omega, h3⟩
              · rw [List.chain'_cons']
                refine ⟨fun y hy => ?_, hch⟩
                have hmy : y ∈ getRegionsAux m fuel (a + mbi.RegionSize) :=
                  List.mem_of_mem_head? hy
                exact (hmem y hmy).1
        · have h1 : getRegionsAux m (fuel + 1) a =
              getRegionsAux m fuel (a + mbi.RegionSize) := by
            simp [getRegionsAux, ha, hq, hcm]
          rw [h1]
          obtain ⟨hmem, hch⟩ := ih (a + mbi.RegionSize)
          refine ⟨fun r hr => ?_, hch⟩
          obtain ⟨h2, h3⟩ := hmem r hr
          exact ⟨by omega, h3⟩
    · have h1 : getRegionsAux m (fuel + 1) a = [] := by
        simp [getRegionsAux, ha]
      rw [h1]
      exact ⟨fun r hr => absurd hr (List.not_mem_nil r), List.chain'_nil⟩

/-- A non-overlap chain whose regions all have positive length is strictly
ascending as well. -/
theorem chain_strict_of_pos (l : List (Nat × Nat))
    (h : List.Chain' (fun r s => r.1 + r.2 ≤ s.1) l)
    (hpos : ∀ r ∈ l, 1 ≤ r.2) :
    List.Chain' (fun r s => r.1 + r.2 ≤ s.1 ∧ r.1 < s.1) l := by
  induction l with
  | nil => exact List.chain'_nil
  | cons x t ih =>
    cases t with
    | nil => simp
    | cons y t2 =>
      rw [List.chain'_cons] at h ⊢
      have hx : 1 ≤ x.2 := hpos x (List.mem_cons_self x _)
      refine ⟨⟨h.1, by omega⟩, ?_⟩
      exact ih h.2 (fun r hr => hpos r (List.mem_cons_of_mem x hr))

/-- C7 amended: the region enumerator walks candidate base addresses from
0 upward, advancing by the descriptor's reported region length and by one
page on a query failure, but it terminates at the fixed engine bound
`0x2000000000` (128 GB), not at the process's maximum addressable value;
within that bound it returns an ascending, non-overlapping sequence of
committed regions whose probe read succeeded with non-empty data. -/
theorem region_walk_spec (m : Mem)
    (hpos : ∀ (a : Nat) (mbi : VQInfo),
      m.virtualQuery a = some mbi → 1 ≤ mbi.RegionSize) :
    List.Chain' (fun r s => r.1 + r.2 ≤ s.1 ∧ r.1 < s.1)
      (getReadableMemoryRegions m) ∧
    (∀ r ∈ getReadableMemoryRegions m, r.1 < maxScanAddress ∧
       ∃ mbi : VQInfo, m.virtualQuery r.1 = some mbi ∧ mbi.RegionSize = r.2 ∧
         mbi.State = memCommit ∧
         ∃ t : List Nat,
           m.readBytes r.1 (min 0x1000 mbi.RegionSize) = some t ∧ t ≠ []) ∧
    (∀ f a : Nat, ¬ a < maxScanAddress → getRegionsAux m f a = []) ∧
    (∀ f a : Nat, a < maxScanAddress → m.virtualQuery a = none →
       getRegionsAux m (f + 1) a = getRegionsAux m f (a + pageSize)) ∧
    (∀ (f a : Nat) (mbi : VQInfo), a < maxScanAddress →
       m.virtualQuery a = some mbi → mbi.State ≠ memCommit →
       getRegionsAux m (f + 1) a = getRegionsAux m f (a + mbi.RegionSize)) := by
  obtain ⟨hmem, hch⟩ := getRegionsAux_spec m maxScanAddress 0
  refine ⟨?_, ?_, ?_, ?_, ?_⟩
  · apply chain_strict_of_pos _ hch
    intro r hr
    obtain ⟨_, _, mbi, hq, hsz, _⟩ := hmem r hr
    have := hpos r.1 mbi hq
    omega
  · intro r hr
    exact (hmem r hr).2
  · intro f a ha
    cases f with
    | zero => simp [getRegionsAux]
    | succ f => simp [getRegionsAux, ha]
  · intro f a ha hq
    simp [getRegionsAux, ha, hq]
  · intro f a mbi ha hq hcm
    simp [getRegionsAux, ha, hq, hcm]

/-- C7 counterexample: a memory manager reporting one committed readable
region covering all of `[0, 0x2000000000)` and another committed readable
region at `0x2000000000` itself.  The walk stops at the fixed bound and
never discovers the second region, refuting "terminates only when the
address exceeds the process's maximum addressable value". -/
theorem region_walk_stops_at_fixed_bound :
    getReadableMemoryRegions mem7 = [(0, 0x2000000000)] ∧
    mem7.virtualQuery 0x2000000000 = some ⟨0x1000, 0x1000⟩ ∧
    mem7.readBytes 0x2000000000 0x1000 = some (List.replicate 0x1000 1) ∧
    (0x2000000000, 0x1000) ∉ getReadableMemoryRegions mem7 := by
  refine ⟨rfl, rfl, rfl, ?_⟩
  intro hmem
  rw [show getReadableMemoryRegions mem7 = [(0, 0x2000000000)] from rfl]
    at hmem
  rcases List.mem_cons.mp hmem with h | h
  · exact absurd (congrArg Prod.fst h) (by norm_num)
  · exact absurd h (List.not_mem_nil _)

/-- Witness for the amended C7 at the concrete environment `mem7`. -/
theorem region_walk_spec_witness :
    List.Chain' (fun r s => r.1 + r.2 ≤ s.1 ∧ r.1 < s.1)
      (getReadableMemoryRegions mem7) ∧
    ∀ r ∈ getReadableMemoryRegions mem7, r.1 < maxScanAddress := by
  have hpos : ∀ (a : Nat) (mbi : VQInfo),
      mem7.virtualQuery a = some mbi → 1 ≤ mbi.RegionSize := by
    intro a mbi h
    simp only [mem7] at h
    split_ifs at h with h1 h2
    · have h3 := (Option.some.inj h).symm
      have h4 : mbi.RegionSize = 0x2000000000 - a := by rw [h3]
      omega
    · have h3 := (Option.some.inj h).symm
      have h4 : mbi.RegionSize = 0x1000 := by rw [h3]
      omega
  obtain ⟨h1, h2, _⟩ := region_walk_spec mem7 hpos
  exact ⟨h1, fun r hr => (h2 r hr).1⟩

/-! ## Claim C8 -/

/-- C8: transient read failures never abort a scan.  Whenever the target
packs, `scan` returns a count (never raises) and its result set decomposes
chunk by chunk; a chunk whose read fails contributes nothing; and in an
environment that fails exactly at one chunk but agrees elsewhere, the scan
still completes with that chunk's matches removed and every other chunk's
matches unchanged. -/
theorem scan_skips_failed_chunks (m : Mem) (st : ScannerState) (dt : DataType)
    (v : Int) (tb : List Nat) (hdt : st.dataType = some dt)
    (hpk : structPack dt.structCode v = some tb) :
    (∃ st2 : ScannerState, scan m st v = .ok (st2, st2.currentResults.length) ∧
       st2.currentResults =
         (chunkDescrs (regionsFor m st)).flatMap (chunkContrib m tb dt.size)) ∧
    (∀ c : Nat × Nat, m.readBytes c.1 c.2 = none →
       chunkContrib m tb dt.size c = []) ∧
    (∀ (m2 : Mem) (c0 : Nat × Nat), regionsFor m2 st = regionsFor m st →
       m2.readBytes c0.1 c0.2 = none →
       (∀ c ∈ chunkDescrs (regionsFor m st), c ≠ c0 →
         m2.readBytes c.1 c.2 = m.readBytes c.1 c.2) →
       ∃ st3 : ScannerState,
         scan m2 st v = .ok (st3, st3.currentResults.length) ∧
         st3.currentResults = (chunkDescrs (regionsFor m st)).flatMap
           (fun c => if c = c0 then [] else chunkContrib m tb dt.size c)) := by
  refine ⟨⟨_, scan_ok m st dt v tb hdt hpk, rfl⟩, ?_, ?_⟩
  · intro c hc
    unfold chunkContrib readMemoryRegion
    rw [hc]
  · intro m2 c0 hreg hc0 hagree
    refine ⟨_, scan_ok m2 st dt v tb hdt hpk, ?_⟩
    show (chunkDescrs (regionsFor m2 st)).flatMap (chunkContrib m2 tb dt.size) =
      _
    rw [hreg]
    apply List.flatMap_congr
    intro c hc
    by_cases hcc : c = c0
    · rw [if_pos hcc]
      subst hcc
      unfold chunkContrib readMemoryRegion
      rw [hc0]
    · rw [if_neg hcc]
      unfold chunkContrib readMemoryRegion
      rw [hagree c hc hcc]

/-- Witness for C8: the scenario region with an environment whose single
chunk read fails; the scan still completes, with an empty result set. -/
theorem scan_skips_failed_chunks_witness :
    ∃ st3 : ScannerState,
      scan memAny st1 42 = .ok (st3, st3.currentResults.length) ∧
      st3.currentResults = [] := by
  have hagree : ∀ c ∈ chunkDescrs (regionsFor mem1 st1), c ≠ (0x1000, 0x2000) →
      memAny.readBytes c.1 c.2 = mem1.readBytes c.1 c.2 := by
    intro c hc hne
    rw [show chunkDescrs (regionsFor mem1 st1) = [(0x1000, 0x2000)] from rfl]
      at hc
    rcases List.mem_cons.mp hc with h | h
    · exact absurd h hne
    · exact absurd h (List.not_mem_nil _)
  obtain ⟨st3, hs, hres⟩ := (scan_skips_failed_chunks mem1 st1 int32 42 tb32
    rfl rfl).2.2 memAny (0x1000, 0x2000) rfl rfl hagree
  refine ⟨st3, hs, ?_⟩
  rw [hres]
  rfl

/-! ## Claim C1 -/

/-- C1: after any successful `scan`, the result set consists exactly of
the byte-exact sliding-window matches inside successfully read chunks: for
every chunk descriptor of the scanned region list whose read returned
`data`, every offset `i` with `i + width ≤ data.length` whose `width`-byte
slice equals the packed target yields the entry
`(chunk address + i, decoded pattern)` in the result set, and conversely
every recorded entry arises from such a byte-exact match (no non-matching
address is ever recorded).  In particular, for the region list
`[(0x1000, 0x2000)]` with int32 and target 42 stored at offset 0x50,
`scan 42` returns count 1 with result set `[(0x1050, 42)]`. -/
theorem scan_records_exact_window_matches :
    (∀ (m : Mem) (st : ScannerState) (dt : DataType) (v : Int)
       (tb : List Nat) (st2 : ScannerState) (n : Nat),
       st.dataType = some dt → 1 ≤ dt.size →
       structPack dt.structCode v = some tb →
       scan m st v = .ok (st2, n) →
       ((∀ c ∈ chunkDescrs (regionsFor m st), ∀ data : List Nat,
           m.readBytes c.1 c.2 = some data →
           ∀ i : Nat, i + dt.size ≤ data.length →
           (data.drop i).take dt.size = tb →
           (c.1 + i, unpackInt dt.size tb) ∈ st2.currentResults) ∧
        (∀ p ∈ st2.currentResults, ∃ c ∈ chunkDescrs (regionsFor m st),
           ∃ data : List Nat, m.readBytes c.1 c.2 = some data ∧
           ∃ i : Nat, i + dt.size ≤ data.length ∧
             (data.drop i).take dt.size = tb ∧
             p = (c.1 + i, unpackInt dt.size tb)))) ∧
    scan mem1 st1 42 = .ok ({ st1 with currentResults := [(0x1050, 42)] }, 1) := by
  constructor
  · intro m st dt v tb st2 n hdt hsz hpk hscan
    have hok := scan_ok m st dt v tb hdt hpk
    rw [hscan] at hok
    have hpq := Except.ok.inj hok
    have h1 : st2 = _ := congrArg Prod.fst hpq
    have hres : st2.currentResults =
        (chunkDescrs (regionsFor m st)).flatMap (chunkContrib m tb dt.size) := by
      rw [h1]
    constructor
    · intro c hc data hdata i hi hslice
      rw [hres, List.mem_flatMap]
      refine ⟨c, hc, ?_⟩
      have hcon : chunkContrib m tb dt.size c = scanChunk tb dt.size c.1 data := by
        unfold chunkContrib readMemoryRegion
        rw [hdata]
      rw [hcon, scanChunk_mem_iff tb dt.size c.1 data hsz]
      exact ⟨i, hi, hslice, by rw [hslice]⟩
    · intro p hp
      rw [hres, List.mem_flatMap] at hp
      obtain ⟨c, hc, hpc⟩ := hp
      refine ⟨c, hc, ?_⟩
      cases hread : m.readBytes c.1 c.2 with
      | none =>
        have hcon : chunkContrib m tb dt.size c = [] := by
          unfold chunkContrib readMemoryRegion
          rw [hread]
        rw [hcon] at hpc
        exact absurd hpc (List.not_mem_nil p)
      | some data =>
        have hcon : chunkContrib m tb dt.size c =
            scanChunk tb dt.size c.1 data := by
          unfold chunkContrib readMemoryRegion
          rw [hread]
        rw [hcon, scanChunk_mem_iff tb dt.size c.1 data hsz] at hpc
        obtain ⟨i, hi, hslice, hpe⟩ := hpc
        refine ⟨data, rfl, i, hi, hslice, ?_⟩
        rw [hpe, hslice]
  · exact scan_scenario

/-- Witness for C1 at the spec scenario: the completeness direction places
`(0x1050, 42)` in the scenario's result set. -/
theorem scan_records_exact_window_matches_witness :
    (0x1050, (42 : Int)) ∈
      ({ st1 with currentResults := [(0x1050, 42)] } : ScannerState).currentResults := by
  obtain ⟨hgen, hconc⟩ := scan_records_exact_window_matches
  have h := (hgen mem1 st1 int32 42 tb32
      { st1 with currentResults := [(0x1050, 42)] } 1 rfl (by decide) rfl
      hconc).1 (0x1000, 0x2000) (by decide) scenarioData rfl 0x50
      (by rw [scenarioData_length]; decide) scenario_slice_at
  have he : ((0x1000, 0x2000).1 + 0x50, unpackInt int32.size tb32) =
      ((0x1050 : Nat), (42 : Int)) := by
    decide
  rw [he] at h
  exact h

end Gametool
